import Mathlib

/-
Verification of the SkyBlock inventory tracker (src/index.js).

The script polls a profile API, flattens the current item holdings into a
snapshot (item display name ↦ quantity), diffs it against a persisted previous
snapshot, maintains a per-item "net invested quantity" ledger with a
floor-at-zero depletion rule and a pruning pass, notifies via Telegram, and
persists the new state.

Modelling conventions:
  * A JS object / Map used as a string-keyed dictionary is an association list
    `List (String × Int)` in insertion order (JS objects preserve insertion
    order for string keys).  Well-formedness (`keysNodup`) records that a JS
    object cannot hold the same key twice.
  * `obj[k]` is `jsGet`, `obj[k] = v` / `Map.set` is `mapSet` (updating an
    existing key in place keeps its position, as in JS), `x || 0` is
    `jsOr0 ∘ jsGet`, and JS truthiness of a number-or-undefined is `jsTruthy`
    (0 and undefined are falsy).
  * `{...a, ...b}` object spread is `spread a b`: later sources replace the
    values of earlier ones on key collision.
  * Machine numbers are modelled as `Int` (all quantities involved are
    integers; no overflow is reachable at these magnitudes).
-/

namespace SBE1

abbrev Smap := List (String × Int)

/-- Keys of a JS-object model are pairwise distinct. -/
def keysNodup (m : Smap) : Prop := (m.map Prod.fst).Nodup

instance keysNodupDecidable (m : Smap) : Decidable (keysNodup m) :=
  inferInstanceAs (Decidable (m.map Prod.fst).Nodup)

/-- JS property read `obj[k]`: `some v` when present, `none` for `undefined`. -/
def jsGet : Smap → String → Option Int
  | [], _ => none
  | e :: rest, k => if e.1 = k then some e.2 else jsGet rest k

/-- JS `x || 0` on a number-or-undefined (`0 || 0` is `0`, so this is `getD 0`). -/
def jsOr0 : Option Int → Int
  | none => 0
  | some v => v

/-- JS truthiness of a number-or-undefined: `undefined` and `0` are falsy. -/
def jsTruthy : Option Int → Bool
  | none => false
  | some v => decide (v ≠ 0)

/-- JS `obj[k] = v` / `Map.set k v`: replace in place if the key exists,
append otherwise. -/
def mapSet : Smap → String → Int → Smap
  | [], k, v => [(k, v)]
  | e :: rest, k, v => if e.1 = k then (k, v) :: rest else e :: mapSet rest k v

/-- JS `k in obj` / presence of a key. -/
def containsKey (m : Smap) (k : String) : Bool := (jsGet m k).isSome

/-- JS object spread `{...a, ...b}`: all of `a`'s keys first (values replaced
by `b`'s where `b` also has the key), then `b`'s new keys in `b`'s order. -/
def spread (a b : Smap) : Smap :=
  a.map (fun e => (e.1, (jsGet b e.1).getD e.2)) ++
    b.filter (fun e => !containsKey a e.1)

/-! ### Snapshot extraction (getPlayerInventory, src/index.js lines 93-116) -/

/-- One slot object `{id, display_name?, Count?}` from the profile API; a slot
in a container may also be null/undefined, modelled as `Option Slot` at use
sites. -/
structure Slot where
  id : Option String
  display_name : Option String
  Count : Option Int

/-- JS `!item?.id` is false (slot kept) iff the slot is non-null and its `id`
is truthy (present and not the empty string). -/
def slotIdTruthy (s : Slot) : Bool :=
  match s.id with
  | none => false
  | some str => decide (str ≠ "")

/-- JS `item.display_name || "Sin nombre"` (empty string is falsy). -/
def slotKey (s : Slot) : String :=
  match s.display_name with
  | none => "Sin nombre"
  | some d => if d = "" then "Sin nombre" else d

/-- JS `item.Count || 1` (an absent or zero count contributes 1). -/
def slotCount (s : Slot) : Int :=
  match s.Count with
  | none => 1
  | some c => if c = 0 then 1 else c

/-- Loop body shared by `processContainer` and `processStorage`:
skip null slots and slots whose `id` is falsy, otherwise accumulate
`itemsMap.set(key, (itemsMap.get(key) || 0) + count)`. -/
def processSlot (m : Smap) (it : Option Slot) : Smap :=
  match it with
  | none => m
  | some s =>
    if slotIdTruthy s then
      mapSet m (slotKey s) (jsOr0 (jsGet m (slotKey s)) + slotCount s)
    else m

/-- Flat container extraction (src/index.js lines 93-102). -/
def processContainer (container : List (Option Slot)) : Smap :=
  container.foldl processSlot []

/-- A bulk-storage unit, possibly without contents (`containsItems`). -/
structure StorageUnit where
  containsItems : Option (List (Option Slot))

/-- Bulk storage extraction (src/index.js lines 104-116): skip units without
`containsItems`, accumulate all units into one map. -/
def processStorage (storage : List (Option StorageUnit)) : Smap :=
  storage.foldl
    (fun m u =>
      match u with
      | none => m
      | some unit =>
        match unit.containsItems with
        | none => m
        | some items => items.foldl processSlot m)
    []

/-! ### Profile fetch and shape checks (src/index.js lines 75-127) -/

structure ProfileItems where
  inventory : List (Option Slot)
  enderchest : List (Option Slot)
  storage : List (Option StorageUnit)

structure ProfileData where
  items : Option ProfileItems

structure RawProfile where
  current : Bool
  data : Option ProfileData

structure ApiResponse where
  profiles : Option (List RawProfile)

/-- Outcome of `fetchWithRetry` + `response.json()`: either the retries were
exhausted (the last error is rethrown) or a response was decoded. -/
inductive FetchOutcome where
  | failure
  | success (resp : ApiResponse)

structure InventoryData where
  inventory : Smap
  enderchest : Smap
  storage : Smap

/-- getPlayerInventory (src/index.js lines 75-127).  Every failure -
exhausted retries, missing `profiles`, no profile marked `current`, missing
`data.items` - is caught by the surrounding try/catch, which logs and
returns `null` (here `none`). -/
def getPlayerInventory (f : FetchOutcome) : Option InventoryData :=
  match f with
  | .failure => none
  | .success resp =>
    match resp.profiles with
    | none => none
    | some profs =>
      match profs.find? (fun p => p.current) with
      | none => none
      | some prof =>
        match prof.data with
        | none => none
        | some d =>
          match d.items with
          | none => none
          | some items =>
            some { inventory := processContainer items.inventory
                   enderchest := processContainer items.enderchest
                   storage := processStorage items.storage }

/-! ### Reconciliation (checkInventoryChanges, src/index.js lines 129-199) -/

/-- `{...inventoryData.inventory, ...inventoryData.enderchest,
...inventoryData.storage}` (src/index.js lines 134-138). -/
def mergeInventoryData (inv ender storage : Smap) : Smap :=
  spread (spread inv ender) storage

/-- One iteration of the first loop (src/index.js lines 149-165), updating
the accumulated `(newInvestmentRecord, hasChanges)` pair for the entry
`(itemName, currentCount)`. -/
def pass1Step (prevInventory : Smap) (acc : Smap × Bool) (e : String × Int) :
    Smap × Bool :=
  let prevCount := jsOr0 (jsGet prevInventory e.1)
  let diff := e.2 - prevCount
  if 0 < diff then
    (mapSet acc.1 e.1 (jsOr0 (jsGet acc.1 e.1) + diff), true)
  else if diff < 0 then
    let invested := jsOr0 (jsGet acc.1 e.1)
    let sold := min |diff| invested
    if 0 < sold then (mapSet acc.1 e.1 (invested - sold), true) else acc
  else acc

/-- The first loop over `Object.entries(currentInventory)`. -/
def pass1 (prevInventory : Smap) : List (String × Int) → Smap × Bool → Smap × Bool
  | [], acc => acc
  | e :: rest, acc => pass1 prevInventory rest (pass1Step prevInventory acc e)

/-- The second loop (src/index.js lines 167-173) deletes an entry iff
`!currentInventory[itemName] && invested > 0`; an entry is kept iff this
predicate holds.  Iterating the entries snapshot while deleting keys (each key
occurring once) leaves exactly the entries satisfying `pruneKeep`, in order. -/
def pruneKeep (currentInventory : Smap) (e : String × Int) : Bool :=
  jsTruthy (jsGet currentInventory e.1) || !decide (0 < e.2)

/-- The change list rendered into the notification (src/index.js lines
177-181): entries of `currentInventory` where
`prevInventory[name] !== currentInventory[name]`, each with
`prevInventory[name] || 0` and the current count. -/
def changesOf (currentInventory prevInventory : Smap) : List (String × Int × Int) :=
  (currentInventory.filter
      (fun e => !decide (jsGet prevInventory e.1 = jsGet currentInventory e.1))).map
    (fun e => (e.1, jsOr0 (jsGet prevInventory e.1), e.2))

structure ReconcileResult where
  ledger : Smap
  changes : List (String × Int × Int)
  dirty : Bool

/-- The pure reconciliation core of checkInventoryChanges (src/index.js lines
145-184): first pass over the current entries, pruning pass over the resulting
record, `hasChanges` true iff either pass mutated the ledger.  (The source
builds the change list only when `hasChanges` holds, to render the message;
it is computed unconditionally here.) -/
def reconcile (currentInventory prevInventory investmentRecord : Smap) :
    ReconcileResult :=
  let r1 := pass1 prevInventory currentInventory (investmentRecord, false)
  { ledger := r1.1.filter (pruneKeep currentInventory)
    changes := changesOf currentInventory prevInventory
    dirty := r1.2 || r1.1.any (fun e => !pruneKeep currentInventory e) }

/-! ### Notification (src/index.js lines 176-187 and 204-220) -/

/-- The message text built when `hasChanges` holds (src/index.js lines
176-185): a header naming the player, then one `name: prev → current` line
per change when there are any. -/
def buildMessage (playerName : String) (changes : List (String × Int × Int)) :
    String :=
  let header := "📊 Actualización de " ++ playerName ++ ":\n"
  let lines := changes.map
    (fun e => e.1 ++ ": " ++ toString e.2.1 ++ " → " ++ toString e.2.2)
  if 0 < lines.length then
    header ++ "\n🔔 Cambios:\n" ++ String.intercalate "\n" lines
  else header

/-- The JSON body posted to the Telegram API. -/
structure TelegramPayload where
  chat_id : String
  text : String
  parse_mode : String

/-- sendTelegramMessage (src/index.js lines 204-220): the payload carries the
message verbatim as `text`; no length clamp is applied. -/
def sendTelegramMessage (chatId message : String) : TelegramPayload :=
  { chat_id := chatId, text := message, parse_mode := "Markdown" }

/-! ### Run orchestration and exit status (src/index.js lines 129-249) -/

/-- The external outcomes a single run can encounter: the profile fetch, the
two Firestore reads (`none` = the read rejected) and whether the two final
writes succeed. -/
structure RunEnv where
  fetch : FetchOutcome
  prevInventoryDoc : Option Smap
  investmentRecordDoc : Option Smap
  writesOk : Bool

/-- checkInventoryChanges (src/index.js lines 129-199) as a success flag:
`true` iff the function returns without throwing.  A `null` inventory returns
early and successfully; a rejected Firestore read or write rejects the
function (the catch rethrows).  `sendTelegramMessage` swallows its own errors
and never rejects. -/
def checkInventoryChanges (env : RunEnv) : Bool :=
  match getPlayerInventory env.fetch with
  | none => true
  | some inventoryData =>
    match env.prevInventoryDoc, env.investmentRecordDoc with
    | some prevInventory, some investmentRecord =>
      let currentInventory :=
        mergeInventoryData inventoryData.inventory inventoryData.enderchest
          inventoryData.storage
      let _ := reconcile currentInventory prevInventory investmentRecord
      env.writesOk
    | _, _ => false

/-- The main IIFE (src/index.js lines 225-234): exit status 0 when
checkInventoryChanges resolves, 1 when it rejects. -/
def mainExitCode (env : RunEnv) : Nat :=
  if checkInventoryChanges env then 0 else 1

/-! ### Association-list lemmas -/

theorem jsGet_mapSet (m : Smap) (k : String) (v : Int) (x : String) :
    jsGet (mapSet m k v) x = if x = k then some v else jsGet m x := by
  induction m with
  | nil =>
    by_cases h : x = k
    · subst h; simp [mapSet, jsGet]
    · have hk : ¬ k = x := fun hh => h hh.symm
      simp [mapSet, jsGet, h, hk]
  | cons e rest ih =>
    by_cases he : e.1 = k
    · rw [show mapSet (e :: rest) k v = (k, v) :: rest from by simp [mapSet, he]]
      by_cases hx : x = k
      · subst hx; simp [jsGet]
      · have hkx : ¬ k = x := fun hh => hx hh.symm
        have hex : ¬ e.1 = x := by rw [he]; exact hkx
        simp [jsGet, hkx, hex, hx]
    · rw [show mapSet (e :: rest) k v = e :: mapSet rest k v from by simp [mapSet, he]]
      by_cases hex : e.1 = x
      · have hx : ¬ x = k := by
          intro hh
          exact he (by rw [hex, hh])
        simp [jsGet, hex, hx]
      · simp only [jsGet, if_neg hex]
        exact ih

theorem mem_of_jsGet_eq_some {m : Smap} {k : String} {v : Int}
    (h : jsGet m k = some v) : (k, v) ∈ m := by
  induction m with
  | nil => simp [jsGet] at h
  | cons e rest ih =>
    simp only [jsGet] at h
    by_cases he : e.1 = k
    · rw [if_pos he] at h
      have hv : e.2 = v := by injection h
      have hek : e = (k, v) := Prod.ext he hv
      rw [← hek]
      exact List.mem_cons_self e rest
    · rw [if_neg he] at h
      exact List.mem_cons_of_mem e (ih h)

theorem jsGet_eq_none_iff {m : Smap} {k : String} :
    jsGet m k = none ↔ k ∉ m.map Prod.fst := by
  induction m with
  | nil => simp [jsGet]
  | cons e rest ih =>
    by_cases he : e.1 = k
    · simp [jsGet, he]
    · have hke : ¬ k = e.1 := fun hh => he hh.symm
      simp [jsGet, he, hke, ih]

theorem jsGet_eq_some_of_mem {m : Smap} (hn : keysNodup m) {k : String} {v : Int}
    (h : (k, v) ∈ m) : jsGet m k = some v := by
  induction m with
  | nil => simp at h
  | cons e rest ih =>
    have h1 := List.nodup_cons.1 hn
    rcases List.mem_cons.1 h with h2 | h2
    · rw [← h2]
      simp [jsGet]
    · have hne : e.1 ≠ k := by
        intro hek
        have hk : k ∈ rest.map Prod.fst := List.mem_map.2 ⟨(k, v), h2, rfl⟩
        rw [← hek] at hk
        exact h1.1 hk
      simp [jsGet, hne, ih h1.2 h2]

theorem mem_keys_mapSet {m : Smap} {k : String} {v : Int} {x : String} :
    x ∈ (mapSet m k v).map Prod.fst ↔ x = k ∨ x ∈ m.map Prod.fst := by
  induction m with
  | nil => simp [mapSet]
  | cons e rest ih =>
    by_cases he : e.1 = k
    · rw [show mapSet (e :: rest) k v = (k, v) :: rest from by simp [mapSet, he]]
      simp only [List.map_cons, List.mem_cons, he]
      tauto
    · rw [show mapSet (e :: rest) k v = e :: mapSet rest k v from by simp [mapSet, he]]
      simp only [List.map_cons, List.mem_cons, ih]
      tauto

theorem keysNodup_mapSet {m : Smap} (hn : keysNodup m) (k : String) (v : Int) :
    keysNodup (mapSet m k v) := by
  induction m with
  | nil => simp [mapSet, keysNodup]
  | cons e rest ih =>
    have h1 := List.nodup_cons.1 hn
    by_cases he : e.1 = k
    · rw [show mapSet (e :: rest) k v = (k, v) :: rest from by simp [mapSet, he]]
      refine List.nodup_cons.2 ⟨?_, h1.2⟩
      rw [← he]
      exact h1.1
    · rw [show mapSet (e :: rest) k v = e :: mapSet rest k v from by simp [mapSet, he]]
      refine List.nodup_cons.2 ⟨?_, ih h1.2⟩
      intro hmem
      rcases mem_keys_mapSet.1 hmem with h3 | h3
      · exact he h3
      · exact h1.1 h3

theorem jsGet_filter_of_eq_none {m : Smap} (p : String × Int → Bool) {k : String}
    (h : jsGet m k = none) : jsGet (m.filter p) k = none := by
  induction m with
  | nil => simp [jsGet]
  | cons e rest ih =>
    simp only [jsGet] at h
    by_cases he : e.1 = k
    · rw [if_pos he] at h
      exact absurd h (by simp)
    · rw [if_neg he] at h
      rw [List.filter_cons]
      by_cases hp : p e = true
      · rw [if_pos hp]
        simp only [jsGet, if_neg he]
        exact ih h
      · rw [if_neg hp]
        exact ih h

theorem jsGet_filter_of_keep {m : Smap} (hn : keysNodup m)
    (p : String × Int → Bool) {k : String} {v : Int}
    (h : jsGet m k = some v) (hp : p (k, v) = true) :
    jsGet (m.filter p) k = some v := by
  induction m with
  | nil => simp [jsGet] at h
  | cons e rest ih =>
    have h1 := List.nodup_cons.1 hn
    simp only [jsGet] at h
    by_cases he : e.1 = k
    · rw [if_pos he] at h
      have hv : e.2 = v := by injection h
      have hek : e = (k, v) := Prod.ext he hv
      rw [List.filter_cons, hek, hp]
      simp [jsGet]
    · rw [if_neg he] at h
      rw [List.filter_cons]
      by_cases hpe : p e = true
      · rw [if_pos hpe]
        simp only [jsGet, if_neg he]
        exact ih h1.2 h
      · rw [if_neg hpe]
        exact ih h1.2 h

theorem jsGet_filter_of_drop {m : Smap} (hn : keysNodup m)
    (p : String × Int → Bool) {k : String} {v : Int}
    (h : jsGet m k = some v) (hp : p (k, v) = false) :
    jsGet (m.filter p) k = none := by
  induction m with
  | nil => simp [jsGet] at h
  | cons e rest ih =>
    have h1 := List.nodup_cons.1 hn
    simp only [jsGet] at h
    by_cases he : e.1 = k
    · rw [if_pos he] at h
      have hv : e.2 = v := by injection h
      have hek : e = (k, v) := Prod.ext he hv
      have hnone : jsGet rest k = none := by
        rw [jsGet_eq_none_iff]
        intro hmem
        rw [← he] at hmem
        exact h1.1 hmem
      rw [List.filter_cons, hek, hp]
      simp only [Bool.false_eq_true, if_false]
      exact jsGet_filter_of_eq_none p hnone
    · rw [if_neg he] at h
      rw [List.filter_cons]
      by_cases hpe : p e = true
      · rw [if_pos hpe]
        simp only [jsGet, if_neg he]
        exact ih h1.2 h
      · rw [if_neg hpe]
        exact ih h1.2 h


/-! ### First-pass lemmas -/

/-- The record value the first pass leaves at one key, as a function of the
previous count `p`, the incoming record value `lv` at that key and the current
count `c`. -/
def pass1ValueAt (p : Int) (lv : Option Int) (c : Int) : Option Int :=
  let diff := c - p
  if 0 < diff then some (jsOr0 lv + diff)
  else if diff < 0 then
    let invested := jsOr0 lv
    let sold := min |diff| invested
    if 0 < sold then some (invested - sold) else lv
  else lv

/-- Whether the first pass marks `hasChanges` at one key. -/
def pass1DirtyAt (p : Int) (lv : Option Int) (c : Int) : Bool :=
  let diff := c - p
  if 0 < diff then true
  else if diff < 0 then decide (0 < min |diff| (jsOr0 lv))
  else false

theorem pass1Step_fst (prev : Smap) (acc : Smap × Bool) (e : String × Int) (x : String) :
    jsGet (pass1Step prev acc e).1 x =
      if x = e.1 then pass1ValueAt (jsOr0 (jsGet prev e.1)) (jsGet acc.1 e.1) e.2
      else jsGet acc.1 x := by
  unfold pass1Step pass1ValueAt
  by_cases h1 : 0 < e.2 - jsOr0 (jsGet prev e.1)
  · simp only [if_pos h1, jsGet_mapSet]
  · by_cases h2 : e.2 - jsOr0 (jsGet prev e.1) < 0
    · by_cases h3 : 0 < min |e.2 - jsOr0 (jsGet prev e.1)| (jsOr0 (jsGet acc.1 e.1))
      · simp only [if_neg h1, if_pos h2, if_pos h3, jsGet_mapSet]
      · simp only [if_neg h1, if_pos h2, if_neg h3]
        by_cases hx : x = e.1
        · rw [if_pos hx, hx]
        · rw [if_neg hx]
    · simp only [if_neg h1, if_neg h2]
      by_cases hx : x = e.1
      · rw [if_pos hx, hx]
      · rw [if_neg hx]

theorem pass1Step_snd (prev : Smap) (acc : Smap × Bool) (e : String × Int) :
    (pass1Step prev acc e).2 =
      (acc.2 || pass1DirtyAt (jsOr0 (jsGet prev e.1)) (jsGet acc.1 e.1) e.2) := by
  unfold pass1Step pass1DirtyAt
  by_cases h1 : 0 < e.2 - jsOr0 (jsGet prev e.1)
  · rw [if_pos h1, if_pos h1, Bool.or_true]
  · rw [if_neg h1, if_neg h1]
    by_cases h2 : e.2 - jsOr0 (jsGet prev e.1) < 0
    · rw [if_pos h2, if_pos h2]
      by_cases h3 : 0 < min |e.2 - jsOr0 (jsGet prev e.1)| (jsOr0 (jsGet acc.1 e.1))
      · rw [if_pos h3, decide_eq_true h3, Bool.or_true]
      · rw [if_neg h3, decide_eq_false h3, Bool.or_false]
    · rw [if_neg h2, if_neg h2, Bool.or_false]

theorem pass1Step_keysNodup (prev : Smap) (acc : Smap × Bool) (e : String × Int)
    (hn : keysNodup acc.1) : keysNodup (pass1Step prev acc e).1 := by
  unfold pass1Step
  by_cases h1 : 0 < e.2 - jsOr0 (jsGet prev e.1)
  · simp only [if_pos h1]
    exact keysNodup_mapSet hn _ _
  · by_cases h2 : e.2 - jsOr0 (jsGet prev e.1) < 0
    · by_cases h3 : 0 < min |e.2 - jsOr0 (jsGet prev e.1)| (jsOr0 (jsGet acc.1 e.1))
      · simp only [if_neg h1, if_pos h2, if_pos h3]
        exact keysNodup_mapSet hn _ _
      · simp only [if_neg h1, if_pos h2, if_neg h3]
        exact hn
    · simp only [if_neg h1, if_neg h2]
      exact hn

theorem pass1_keysNodup (prev : Smap) (l : List (String × Int)) (acc : Smap × Bool)
    (hn : keysNodup acc.1) : keysNodup (pass1 prev l acc).1 := by
  induction l generalizing acc with
  | nil => exact hn
  | cons e rest ih =>
    exact ih (pass1Step prev acc e) (pass1Step_keysNodup prev acc e hn)

theorem pass1_fst_of_not_mem {prev : Smap} {l : List (String × Int)} {x : String}
    (h : x ∉ l.map Prod.fst) (acc : Smap × Bool) :
    jsGet (pass1 prev l acc).1 x = jsGet acc.1 x := by
  induction l generalizing acc with
  | nil => rfl
  | cons e rest ih =>
    have hx : ¬ x = e.1 := by
      intro hh
      exact h (by simp [hh])
    have hrest : x ∉ rest.map Prod.fst := by
      intro hh
      exact h (by simp [hh])
    show jsGet (pass1 prev rest (pass1Step prev acc e)).1 x = jsGet acc.1 x
    rw [ih hrest, pass1Step_fst, if_neg hx]

theorem pass1_fst_of_mem {prev : Smap} {l : List (String × Int)} {x : String} {c : Int}
    (hn : (l.map Prod.fst).Nodup) (h : (x, c) ∈ l) (acc : Smap × Bool) :
    jsGet (pass1 prev l acc).1 x =
      pass1ValueAt (jsOr0 (jsGet prev x)) (jsGet acc.1 x) c := by
  induction l generalizing acc with
  | nil => simp at h
  | cons e rest ih =>
    have h1 := List.nodup_cons.1 hn
    rcases List.mem_cons.1 h with h2 | h2
    · subst h2
      have hx : x ∉ rest.map Prod.fst := h1.1
      show jsGet (pass1 prev rest (pass1Step prev acc (x, c))).1 x = _
      rw [pass1_fst_of_not_mem hx, pass1Step_fst]
      simp
    · have hex : ¬ x = e.1 := by
        intro hh
        have hm : x ∈ rest.map Prod.fst := List.mem_map.2 ⟨(x, c), h2, rfl⟩
        rw [hh] at hm
        exact h1.1 hm
      show jsGet (pass1 prev rest (pass1Step prev acc e)).1 x = _
      rw [ih h1.2 h2, pass1Step_fst, if_neg hex]

theorem pass1_snd_of_true {prev : Smap} (l : List (String × Int)) :
    ∀ acc : Smap × Bool, acc.2 = true → (pass1 prev l acc).2 = true := by
  induction l with
  | nil => exact fun acc h => h
  | cons e rest ih =>
    intro acc h
    show (pass1 prev rest (pass1Step prev acc e)).2 = true
    exact ih _ (by rw [pass1Step_snd, h, Bool.true_or])

theorem pass1_snd_of_dirtyAt {prev : Smap} {l : List (String × Int)} {x : String} {c : Int}
    (hn : (l.map Prod.fst).Nodup) (h : (x, c) ∈ l) (acc : Smap × Bool)
    (hd : pass1DirtyAt (jsOr0 (jsGet prev x)) (jsGet acc.1 x) c = true) :
    (pass1 prev l acc).2 = true := by
  induction l generalizing acc with
  | nil => simp at h
  | cons e rest ih =>
    have h1 := List.nodup_cons.1 hn
    rcases List.mem_cons.1 h with h2 | h2
    · subst h2
      show (pass1 prev rest (pass1Step prev acc (x, c))).2 = true
      refine pass1_snd_of_true rest _ ?_
      rw [pass1Step_snd]
      have hd2 : pass1DirtyAt (jsOr0 (jsGet prev (x, c).1)) (jsGet acc.1 (x, c).1) (x, c).2
          = true := hd
      rw [hd2, Bool.or_true]
    · have hex : ¬ x = e.1 := by
        intro hh
        have hm : x ∈ rest.map Prod.fst := List.mem_map.2 ⟨(x, c), h2, rfl⟩
        rw [hh] at hm
        exact h1.1 hm
      show (pass1 prev rest (pass1Step prev acc e)).2 = true
      refine ih h1.2 h2 _ ?_
      rw [pass1Step_fst, if_neg hex]
      exact hd

theorem pass1_noop {prev : Smap} {l : List (String × Int)}
    (h : ∀ e ∈ l, jsOr0 (jsGet prev e.1) = e.2) (acc : Smap × Bool) :
    pass1 prev l acc = acc := by
  induction l generalizing acc with
  | nil => rfl
  | cons e rest ih =>
    have hstep : pass1Step prev acc e = acc := by
      unfold pass1Step
      have he : jsOr0 (jsGet prev e.1) = e.2 := h e (List.mem_cons_self e rest)
      rw [he]
      simp
    show pass1 prev rest (pass1Step prev acc e) = acc
    rw [hstep]
    exact ih (fun z hz => h z (List.mem_cons_of_mem e hz)) acc


/-! ### Spread lemmas -/

theorem jsGet_append (a b : Smap) (k : String) :
    jsGet (a ++ b) k = match jsGet a k with
      | some v => some v
      | none => jsGet b k := by
  induction a with
  | nil => rfl
  | cons e rest ih =>
    by_cases he : e.1 = k
    · simp [jsGet, he]
    · simp [jsGet, he, ih]

theorem jsGet_spread_map (a b : Smap) (k : String) :
    jsGet (a.map (fun e => (e.1, (jsGet b e.1).getD e.2))) k
      = (jsGet a k).map (fun v => (jsGet b k).getD v) := by
  induction a with
  | nil => rfl
  | cons e rest ih =>
    by_cases he : e.1 = k
    · subst he
      simp [jsGet]
    · simp [jsGet, he, ih]

theorem jsGet_spread_filter (a b : Smap) {k : String} (h : jsGet a k = none) :
    jsGet (b.filter (fun e => !containsKey a e.1)) k = jsGet b k := by
  induction b with
  | nil => rfl
  | cons e rest ih =>
    rw [List.filter_cons]
    by_cases he : e.1 = k
    · have hq : (!containsKey a e.1) = true := by
        simp [containsKey, he, h]
      rw [hq]
      simp only [if_pos rfl]
      simp [jsGet, he]
    · by_cases hqe : (!containsKey a e.1) = true
      · rw [hqe]
        simp only [if_pos rfl]
        simp [jsGet, he, ih]
      · simp only [hqe]
        simp only [Bool.false_eq_true, if_false]
        simp [jsGet, he, ih]

theorem jsGet_spread (a b : Smap) (k : String) :
    jsGet (spread a b) k = match jsGet b k with
      | some v => some v
      | none => jsGet a k := by
  unfold spread
  rw [jsGet_append, jsGet_spread_map]
  cases ha : jsGet a k with
  | none =>
    rw [jsGet_spread_filter a b ha]
    cases jsGet b k <;> rfl
  | some v =>
    cases jsGet b k <;> rfl


/-! ### Container-extraction lemmas -/


/-- Declarative per-name total of a flat container: over the slots that are
non-null and have a truthy `id`, sum the counts (a missing count counting
as 1) of the slots whose display name resolves to `k`. -/
def containerSum : List (Option Slot) → String → Int
  | [], _ => 0
  | none :: rest, k => containerSum rest k
  | some s :: rest, k =>
    (if slotIdTruthy s ∧ slotKey s = k then slotCount s else 0) + containerSum rest k

theorem foldl_processSlot_jsOr0 (container : List (Option Slot)) (m : Smap) (k : String) :
    jsOr0 (jsGet (container.foldl processSlot m) k)
      = jsOr0 (jsGet m k) + containerSum container k := by
  induction container generalizing m with
  | nil => simp [containerSum]
  | cons it rest ih =>
    cases it with
    | none =>
      show jsOr0 (jsGet (rest.foldl processSlot (processSlot m none)) k) = _
      rw [show processSlot m none = m from rfl, ih, containerSum]
    | some s =>
      show jsOr0 (jsGet (rest.foldl processSlot (processSlot m (some s))) k) = _
      by_cases hid : slotIdTruthy s = true
      · have hstep : processSlot m (some s)
            = mapSet m (slotKey s) (jsOr0 (jsGet m (slotKey s)) + slotCount s) := by
          simp [processSlot, hid]
        rw [hstep, ih, jsGet_mapSet]
        by_cases hk : k = slotKey s
        · rw [if_pos hk, containerSum, if_pos ⟨hid, hk.symm⟩, hk]
          show jsOr0 (jsGet m (slotKey s)) + slotCount s + containerSum rest (slotKey s)
            = jsOr0 (jsGet m (slotKey s)) + (slotCount s + containerSum rest (slotKey s))
          ring
        · rw [if_neg hk, containerSum,
            if_neg (fun hh => hk (hh.2.symm))]
          ring
      · have hstep : processSlot m (some s) = m := by
          simp [processSlot, hid]
        rw [hstep, ih, containerSum, if_neg (fun hh => hid hh.1)]
        ring

/-! ### Claims on the reconciliation engine -/


/-- C1 (counterexample): with incoming ledger mapping "X" to 0 and "X" absent
from the current snapshot, the outgoing ledger still contains "X" - the
pruning pass only deletes entries with value strictly greater than 0, so the
claim that no zero-valued entry survives for an absent item is false. -/
theorem reconcile_absent_zero_entry_cex :
    ¬ jsGet (reconcile [] [] [("X", 0)]).ledger "X" = none := by decide

/-- C1 (amended): if the incoming ledger maps an item name to 0 and that name
is absent from the current snapshot, the outgoing ledger still maps it to 0 -
the pruning pass removes an absent item's entry only when its value is
strictly positive, so zero-valued entries for absent items persist. -/
theorem reconcile_keeps_zero_entry (current prev led : Smap) (n : String)
    (hled : keysNodup led) (habs : jsGet current n = none)
    (hzero : jsGet led n = some 0) :
    jsGet (reconcile current prev led).ledger n = some 0 := by
  have hnm : n ∉ current.map Prod.fst := jsGet_eq_none_iff.1 habs
  show jsGet ((pass1 prev current (led, false)).1.filter (pruneKeep current)) n = some 0
  have h1 : jsGet (pass1 prev current (led, false)).1 n = some 0 := by
    rw [pass1_fst_of_not_mem hnm]
    exact hzero
  have hnd1 : keysNodup (pass1 prev current (led, false)).1 :=
    pass1_keysNodup prev current (led, false) hled
  have hkeep : pruneKeep current (n, 0) = true := by
    simp [pruneKeep]
  exact jsGet_filter_of_keep hnd1 (pruneKeep current) h1 hkeep

/-- C1 (witness). -/
theorem reconcile_keeps_zero_entry_witness :
    jsGet (reconcile [("Y", 1)] [] [("X", 0)]).ledger "X" = some 0 :=
  reconcile_keeps_zero_entry [("Y", 1)] [] [("X", 0)] "X" (by decide) (by decide)
    (by decide)

/-- C2 (counterexample): reconciling with current = previous = {} and ledger
{X: 5} sets the dirty flag (the pruning pass deletes X), so
`reconcile(A, A, L)` does not always yield `dirty == false`. -/
theorem reconcile_self_dirty_cex :
    ¬ ((reconcile [] [] [("X", 5)]).dirty = false ∧
        (reconcile [] [] [("X", 5)]).changes = []) := by decide

/-- C2 (amended): with identical current and previous snapshots the change
set is always empty, and `dirty == false` provided every incoming ledger
entry with strictly positive value names an item with nonzero quantity in the
snapshot (otherwise the pruning pass deletes it and marks dirty). -/
theorem reconcile_self_noop (A L : Smap) (hA : keysNodup A)
    (hL : ∀ e ∈ L, 0 < e.2 → jsTruthy (jsGet A e.1) = true) :
    (reconcile A A L).dirty = false ∧ (reconcile A A L).changes = [] := by
  have hself : ∀ e ∈ A, jsOr0 (jsGet A e.1) = e.2 := by
    intro e he
    have hm : (e.1, e.2) ∈ A := by
      rw [Prod.mk.eta]
      exact he
    rw [jsGet_eq_some_of_mem hA hm]
    rfl
  have hnoop : pass1 A A (L, false) = (L, false) := pass1_noop hself _
  constructor
  · show ((pass1 A A (L, false)).2
        || (pass1 A A (L, false)).1.any (fun e => !pruneKeep A e)) = false
    rw [hnoop]
    simp only [Bool.false_or]
    rw [List.any_eq_false]
    intro e he
    have hkeep : pruneKeep A e = true := by
      by_cases hpos : 0 < e.2
      · unfold pruneKeep
        rw [hL e he hpos, Bool.true_or]
      · unfold pruneKeep
        rw [decide_eq_false hpos]
        simp
    simp [hkeep]
  · show changesOf A A = []
    unfold changesOf
    have hfil : A.filter
        (fun e => !decide (jsGet A e.1 = jsGet A e.1)) = [] := by
      rw [List.filter_eq_nil_iff]
      intro e he
      simp
    rw [hfil]
    rfl

/-- C2 (witness). -/
theorem reconcile_self_noop_witness :
    (reconcile [("X", 2)] [("X", 2)] [("X", 1)]).dirty = false ∧
      (reconcile [("X", 2)] [("X", 2)] [("X", 1)]).changes = [] :=
  reconcile_self_noop [("X", 2)] [("X", 1)] (by decide) (by decide)

/-- C5 (confirmed): an item name absent from the current snapshot but present
in the incoming ledger with strictly positive value is absent from the
outgoing ledger - the pruning pass deletes it. -/
theorem reconcile_prunes_absent_positive (current prev led : Smap) (n : String)
    (v : Int) (hled : keysNodup led) (habs : jsGet current n = none)
    (hv : jsGet led n = some v) (hpos : 0 < v) :
    jsGet (reconcile current prev led).ledger n = none := by
  have hnm : n ∉ current.map Prod.fst := jsGet_eq_none_iff.1 habs
  show jsGet ((pass1 prev current (led, false)).1.filter (pruneKeep current)) n = none
  have h1 : jsGet (pass1 prev current (led, false)).1 n = some v := by
    rw [pass1_fst_of_not_mem hnm]
    exact hv
  have hnd1 : keysNodup (pass1 prev current (led, false)).1 :=
    pass1_keysNodup prev current (led, false) hled
  have hkeep : pruneKeep current (n, v) = false := by
    unfold pruneKeep
    rw [show jsTruthy (jsGet current n) = false from by rw [habs]; rfl,
      decide_eq_true hpos]
    rfl
  exact jsGet_filter_of_drop hnd1 (pruneKeep current) h1 hkeep

/-- C5 (witness): the Bow scenario - ledger {Bow: 3}, previous {Bow: 1},
current {} leaves no Bow key in the outgoing ledger. -/
theorem reconcile_prunes_absent_positive_witness :
    jsGet (reconcile [] [("Bow", 1)] [("Bow", 3)]).ledger "Bow" = none :=
  reconcile_prunes_absent_positive [] [("Bow", 1)] [("Bow", 3)] "Bow" 3
    (by decide) (by decide) (by decide) (by decide)



/-- C4 (counterexample): for an item present in the current snapshot with
quantity 0 and previous quantity 5, incoming ledger value 10, the outgoing
ledger value is not `max(0, 10 - 5) = 5`: the pruning pass treats the
0-quantity item as absent and deletes the depleted entry entirely. -/
theorem reconcile_depletion_floor_cex :
    ¬ (jsOr0 (jsGet (reconcile [("X", 0)] [("X", 5)] [("X", 10)]).ledger "X")
        = max 0 (jsOr0 (jsGet [("X", 10)] "X")
            - (jsOr0 (jsGet [("X", 5)] "X") - 0))) := by decide

/-- C4 (amended): for every item present in the current snapshot with nonzero
current quantity strictly less than its previous quantity, if all incoming
ledger values are non-negative the outgoing ledger value for that item equals
`max(0, priorLedgerValue - (previous - current))` (never negative); the
nonzero restriction is needed because a 0-quantity item is pruned instead. -/
theorem reconcile_depletion_floor (current prev led : Smap) (n : String)
    (c : Int) (hcur : keysNodup current) (hled : keysNodup led)
    (hc : jsGet current n = some c) (hcnz : c ≠ 0)
    (hlt : c < jsOr0 (jsGet prev n)) (hnn : ∀ e ∈ led, 0 ≤ e.2) :
    jsOr0 (jsGet (reconcile current prev led).ledger n)
      = max 0 (jsOr0 (jsGet led n) - (jsOr0 (jsGet prev n) - c)) := by
  have hm : (n, c) ∈ current := mem_of_jsGet_eq_some hc
  have h1 : jsGet (pass1 prev current (led, false)).1 n
      = pass1ValueAt (jsOr0 (jsGet prev n)) (jsGet led n) c :=
    pass1_fst_of_mem hcur hm _
  have hnd1 : keysNodup (pass1 prev current (led, false)).1 :=
    pass1_keysNodup prev current (led, false) hled
  have hdiff : c - jsOr0 (jsGet prev n) < 0 := by omega
  have habs : |c - jsOr0 (jsGet prev n)| = jsOr0 (jsGet prev n) - c := by
    rw [abs_of_neg hdiff]
    ring
  have hinv : 0 ≤ jsOr0 (jsGet led n) := by
    cases hlv : jsGet led n with
    | none => exact le_refl 0
    | some w => exact hnn (n, w) (mem_of_jsGet_eq_some hlv)
  have hkeepT : jsTruthy (jsGet current n) = true := by
    rw [hc]
    simp [jsTruthy, hcnz]
  show jsOr0
      (jsGet ((pass1 prev current (led, false)).1.filter (pruneKeep current)) n)
    = max 0 (jsOr0 (jsGet led n) - (jsOr0 (jsGet prev n) - c))
  by_cases hpos : 0 < jsOr0 (jsGet led n)
  · -- positive invested amount: the entry is written and kept
    have hval : pass1ValueAt (jsOr0 (jsGet prev n)) (jsGet led n) c
        = some (jsOr0 (jsGet led n)
            - min (jsOr0 (jsGet prev n) - c) (jsOr0 (jsGet led n))) := by
      unfold pass1ValueAt
      rw [if_neg (by omega : ¬ 0 < c - jsOr0 (jsGet prev n)), if_pos hdiff, habs,
        if_pos (lt_min (by omega) hpos)]
    rw [hval] at h1
    have hkeep : pruneKeep current
        (n, jsOr0 (jsGet led n)
          - min (jsOr0 (jsGet prev n) - c) (jsOr0 (jsGet led n))) = true := by
      unfold pruneKeep
      rw [hkeepT, Bool.true_or]
    rw [jsGet_filter_of_keep hnd1 (pruneKeep current) h1 hkeep]
    rcases le_total (jsOr0 (jsGet prev n) - c) (jsOr0 (jsGet led n)) with hmn | hmn
    · rw [min_eq_left hmn, max_eq_right (by omega : (0 : Int)
        ≤ jsOr0 (jsGet led n) - (jsOr0 (jsGet prev n) - c))]
      rfl
    · rw [min_eq_right hmn, max_eq_left (by omega : jsOr0 (jsGet led n)
        - (jsOr0 (jsGet prev n) - c) ≤ (0 : Int))]
      show jsOr0 (jsGet led n) - jsOr0 (jsGet led n) = 0
      ring
  · -- invested amount 0: nothing is sold, the entry (if any) stays at 0
    have hz : jsOr0 (jsGet led n) = 0 := by omega
    have hval : pass1ValueAt (jsOr0 (jsGet prev n)) (jsGet led n) c
        = jsGet led n := by
      unfold pass1ValueAt
      rw [if_neg (by omega : ¬ 0 < c - jsOr0 (jsGet prev n)), if_pos hdiff, habs, hz,
        if_neg (by omega : ¬ (0 : Int) < min (jsOr0 (jsGet prev n) - c) 0)]
    rw [hval] at h1
    rw [max_eq_left (by omega : jsOr0 (jsGet led n)
      - (jsOr0 (jsGet prev n) - c) ≤ (0 : Int))]
    cases hlv : jsGet led n with
    | none =>
      rw [hlv] at h1
      rw [jsGet_filter_of_eq_none (pruneKeep current) h1]
      rfl
    | some w =>
      have hw : w = 0 := by
        rw [hlv] at hz
        exact hz
      subst hw
      rw [hlv] at h1
      have hkeep : pruneKeep current (n, 0) = true := by
        unfold pruneKeep
        rw [hkeepT, Bool.true_or]
      rw [jsGet_filter_of_keep hnd1 (pruneKeep current) h1 hkeep]
      rfl

/-- C4 (witness): the Diamond scenario - previous 20, current 15, invested
10 - leaves ledger value 5 = max(0, 10 - 5). -/
theorem reconcile_depletion_floor_witness :
    jsOr0 (jsGet (reconcile [("Diamond", 15)] [("Diamond", 20)]
        [("Diamond", 10)]).ledger "Diamond")
      = max 0 (jsOr0 (jsGet [("Diamond", 10)] "Diamond")
          - (jsOr0 (jsGet [("Diamond", 20)] "Diamond") - 15)) :=
  reconcile_depletion_floor [("Diamond", 15)] [("Diamond", 20)] [("Diamond", 10)]
    "Diamond" 15 (by decide) (by decide) (by decide) (by decide) (by decide)
    (by decide)

/-- C6 (confirmed): reconciling a second time with the second call's previous
snapshot set to the (unchanged) current snapshot and its ledger set to the
first call's output ledger yields `dirty == false`: the first pass sees no
diffs, and the first call's pruning already removed every positive-valued
entry for a falsy item. -/
theorem reconcile_idempotent (current prev led : Smap) (hcur : keysNodup current) :
    (reconcile current current (reconcile current prev led).ledger).dirty = false := by
  have hself : ∀ e ∈ current, jsOr0 (jsGet current e.1) = e.2 := by
    intro e he
    have hm : (e.1, e.2) ∈ current := by
      rw [Prod.mk.eta]
      exact he
    rw [jsGet_eq_some_of_mem hcur hm]
    rfl
  have hnoop : pass1 current current ((reconcile current prev led).ledger, false)
      = ((reconcile current prev led).ledger, false) := pass1_noop hself _
  show ((pass1 current current ((reconcile current prev led).ledger, false)).2
      || (pass1 current current ((reconcile current prev led).ledger, false)).1.any
        (fun e => !pruneKeep current e)) = false
  rw [hnoop]
  simp only [Bool.false_or]
  rw [List.any_eq_false]
  intro e he
  have hmem : e ∈ (pass1 prev current (led, false)).1.filter (pruneKeep current) := he
  have hkeep : pruneKeep current e = true := List.of_mem_filter hmem
  simp [hkeep]

/-- C6 (witness). -/
theorem reconcile_idempotent_witness :
    (reconcile [("X", 2)] [("X", 2)]
      (reconcile [("X", 2)] [("Y", 4)] [("Y", 3)]).ledger).dirty = false :=
  reconcile_idempotent [("X", 2)] [("Y", 4)] [("Y", 3)] (by decide)

/-- C10 (counterexample): current {X: 0}, previous {X: 5}, ledger {X: 3} - the
first pass depletes X to 0 before pruning runs, so the entry is NOT deleted
(it survives at 0), unlike the behaviour when X is missing from the current
snapshot, where the entry is deleted; so a 0-quantity item is not treated
exactly as if it were absent. -/
theorem reconcile_zero_count_cex :
    jsGet (reconcile [("X", 0)] [("X", 5)] [("X", 3)]).ledger "X" = some 0 ∧
      jsGet (reconcile [] [("X", 5)] [("X", 3)]).ledger "X" = none := by decide

/-- C10 (amended): when the current snapshot maps an item to quantity 0 and
the incoming ledger maps it to `v > 0`, the pruning test does treat the item
as absent (the presence test is on truthiness of the quantity) and `dirty` is
always set, but the first pass depletes the entry by
`min(previousQuantity, v)` first, so the entry is deleted iff `v` exceeds the
previous quantity (treating an absent previous value as 0); it survives at
value 0 otherwise. -/
theorem reconcile_zero_count (current prev led : Smap) (n : String) (v : Int)
    (hcur : keysNodup current) (hled : keysNodup led)
    (hc : jsGet current n = some 0) (hv : jsGet led n = some v) (hpos : 0 < v) :
    (reconcile current prev led).dirty = true ∧
      ((jsGet (reconcile current prev led).ledger n = none)
        ↔ jsOr0 (jsGet prev n) < v) := by
  have hm : (n, (0 : Int)) ∈ current := mem_of_jsGet_eq_some hc
  have h1 : jsGet (pass1 prev current (led, false)).1 n
      = pass1ValueAt (jsOr0 (jsGet prev n)) (jsGet led n) 0 :=
    pass1_fst_of_mem hcur hm _
  rw [hv] at h1
  have hnd1 : keysNodup (pass1 prev current (led, false)).1 :=
    pass1_keysNodup prev current (led, false) hled
  have hfalsy : jsTruthy (jsGet current n) = false := by
    rw [hc]
    rfl
  have hdirtyShape : (reconcile current prev led).dirty
      = ((pass1 prev current (led, false)).2
        || (pass1 prev current (led, false)).1.any
          (fun e => !pruneKeep current e)) := rfl
  have hledgerShape : (reconcile current prev led).ledger
      = (pass1 prev current (led, false)).1.filter (pruneKeep current) := rfl
  rcases lt_trichotomy (jsOr0 (jsGet prev n)) 0 with hp | hp | hp
  · -- negative previous count: the acquisition branch fires
    have hval : pass1ValueAt (jsOr0 (jsGet prev n)) (some v) 0
        = some (jsOr0 (some v) + (0 - jsOr0 (jsGet prev n))) := by
      unfold pass1ValueAt
      rw [if_pos (by omega : 0 < (0 : Int) - jsOr0 (jsGet prev n))]
    rw [hval] at h1
    have hgt : (0 : Int) < jsOr0 (some v) + (0 - jsOr0 (jsGet prev n)) := by
      show (0 : Int) < v + (0 - jsOr0 (jsGet prev n))
      omega
    have hdA : pass1DirtyAt (jsOr0 (jsGet prev n)) (jsGet led n) 0 = true := by
      unfold pass1DirtyAt
      rw [if_pos (by omega : 0 < (0 : Int) - jsOr0 (jsGet prev n))]
    constructor
    · rw [hdirtyShape, pass1_snd_of_dirtyAt hcur hm (led, false) hdA, Bool.true_or]
    · have hkeep : pruneKeep current
          (n, jsOr0 (some v) + (0 - jsOr0 (jsGet prev n))) = false := by
        unfold pruneKeep
        rw [hfalsy, decide_eq_true hgt]
        rfl
      rw [hledgerShape, jsGet_filter_of_drop hnd1 (pruneKeep current) h1 hkeep]
      exact iff_of_true rfl (by omega)
  · -- previous count 0: the first pass is a no-op at n, pruning deletes
    have hval : pass1ValueAt (jsOr0 (jsGet prev n)) (some v) 0 = some v := by
      unfold pass1ValueAt
      rw [hp]
      simp
    rw [hval] at h1
    have hkeep : pruneKeep current (n, v) = false := by
      unfold pruneKeep
      rw [hfalsy, decide_eq_true hpos]
      rfl
    constructor
    · rw [hdirtyShape]
      have hany : (pass1 prev current (led, false)).1.any
          (fun e => !pruneKeep current e) = true := by
        rw [List.any_eq_true]
        refine ⟨(n, v), mem_of_jsGet_eq_some h1, ?_⟩
        rw [hkeep]
        rfl
      rw [hany, Bool.or_true]
    · rw [hledgerShape, jsGet_filter_of_drop hnd1 (pruneKeep current) h1 hkeep]
      exact iff_of_true rfl (by omega)
  · -- positive previous count: depletion first, then the truthiness test
    have habs0 : |(0 : Int) - jsOr0 (jsGet prev n)| = jsOr0 (jsGet prev n) := by
      rw [abs_of_neg (by omega : (0 : Int) - jsOr0 (jsGet prev n) < 0)]
      ring
    have hval : pass1ValueAt (jsOr0 (jsGet prev n)) (some v) 0
        = some (v - min (jsOr0 (jsGet prev n)) v) := by
      unfold pass1ValueAt
      rw [if_neg (by omega : ¬ 0 < (0 : Int) - jsOr0 (jsGet prev n)),
        if_pos (by omega : (0 : Int) - jsOr0 (jsGet prev n) < 0), habs0]
      rw [show jsOr0 (some v) = v from rfl,
        if_pos (lt_min hp hpos)]
    rw [hval] at h1
    have hdA : pass1DirtyAt (jsOr0 (jsGet prev n)) (jsGet led n) 0 = true := by
      unfold pass1DirtyAt
      rw [if_neg (by omega : ¬ 0 < (0 : Int) - jsOr0 (jsGet prev n)),
        if_pos (by omega : (0 : Int) - jsOr0 (jsGet prev n) < 0), hv, habs0]
      rw [show jsOr0 (some v) = v from rfl, decide_eq_true (lt_min hp hpos)]
    refine ⟨by rw [hdirtyShape, pass1_snd_of_dirtyAt hcur hm (led, false) hdA, Bool.true_or], ?_⟩
    rcases le_or_lt v (jsOr0 (jsGet prev n)) with hle | hlt
    · -- everything sold: the entry survives at 0
      have hvz : v - min (jsOr0 (jsGet prev n)) v = 0 := by
        rw [min_eq_right hle]
        ring
      rw [hvz] at h1
      have hkeep : pruneKeep current (n, 0) = true := by
        unfold pruneKeep
        rw [hfalsy]
        rfl
      rw [hledgerShape, jsGet_filter_of_keep hnd1 (pruneKeep current) h1 hkeep]
      exact iff_of_false (by simp) (by omega)
    · -- a positive remainder: pruning deletes it
      have hgt : (0 : Int) < v - min (jsOr0 (jsGet prev n)) v := by
        rw [min_eq_left (le_of_lt hlt)]
        omega
      have hkeep : pruneKeep current (n, v - min (jsOr0 (jsGet prev n)) v) = false := by
        unfold pruneKeep
        rw [hfalsy, decide_eq_true hgt]
        rfl
      rw [hledgerShape, jsGet_filter_of_drop hnd1 (pruneKeep current) h1 hkeep]
      exact iff_of_true rfl hlt

/-- C10 (witness): current {X: 0}, previous absent, ledger {X: 3}: dirty is
set and the entry is deleted since 0 < 3. -/
theorem reconcile_zero_count_witness :
    (reconcile [("X", 0)] [] [("X", 3)]).dirty = true ∧
      ((jsGet (reconcile [("X", 0)] [] [("X", 3)]).ledger "X" = none)
        ↔ jsOr0 (jsGet [] "X") < 3) :=
  reconcile_zero_count [("X", 0)] [] [("X", 3)] "X" 3 (by decide) (by decide)
    (by decide) (by decide) (by decide)



/-- C7 (confirmed): when an item name appears in more than one of the three
extracted source mappings, the merged snapshot value is the one from the
latest-merged source containing it (storage over ender-chest over inventory),
replacing rather than summing the earlier values. -/
theorem merge_later_source_wins (inv ender storage : Smap) (n : String)
    (hmulti : 2 ≤ ((if containsKey inv n then 1 else 0)
      + (if containsKey ender n then 1 else 0)
      + (if containsKey storage n then 1 else 0) : Nat)) :
    jsGet (mergeInventoryData inv ender storage) n =
      if containsKey storage n then jsGet storage n
      else if containsKey ender n then jsGet ender n
      else jsGet inv n := by
  unfold mergeInventoryData
  rw [jsGet_spread, jsGet_spread]
  cases hs : jsGet storage n with
  | some v => simp [containsKey, hs]
  | none =>
    cases he2 : jsGet ender n with
    | some w => simp [containsKey, hs, he2]
    | none => simp [containsKey, hs, he2]

/-- C7 (witness): "X" in inventory (1) and ender-chest (2) merges to 2, not
to the sum 3. -/
theorem merge_later_source_wins_witness :
    jsGet (mergeInventoryData [("X", 1)] [("X", 2)] []) "X" = some 2 := by
  rw [merge_later_source_wins [("X", 1)] [("X", 2)] [] "X" (by decide)]
  decide

/-- C8 (counterexample): a 5000-character player label produces a transmitted
message text longer than 4000 units - sendTelegramMessage applies no
truncation at all, so the claimed ~4000-unit bound on the transmitted text is
false. -/
theorem sendTelegramMessage_length_cex :
    4000 < ((sendTelegramMessage "chat"
        (buildMessage (String.mk (List.replicate 5000 'a')) [])).text).length := by
  have h : (sendTelegramMessage "chat"
        (buildMessage (String.mk (List.replicate 5000 'a')) [])).text
      = "📊 Actualización de " ++ String.mk (List.replicate 5000 'a') ++ ":\n" := rfl
  rw [h, String.length_append, String.length_append]
  have h2 : (String.mk (List.replicate 5000 'a')).length = 5000 := by
    show (List.replicate 5000 'a').length = 5000
    rw [List.length_replicate]
  have h3 : ("📊 Actualización de " : String).length = 19 := rfl
  have h4 : (":\n" : String).length = 2 := rfl
  rw [h2, h3, h4]
  norm_num

/-- C8 (amended): the current sendTelegramMessage transmits the formatted
message text verbatim, whatever its length; no ~4000-unit clamp is applied
(such a clamp exists only in a historical script variant, not in
src/index.js). -/
theorem sendTelegramMessage_text_verbatim (chatId playerName : String)
    (changes : List (String × Int × Int)) :
    (sendTelegramMessage chatId (buildMessage playerName changes)).text
      = buildMessage playerName changes := rfl

/-- C9 (confirmed): flat-container extraction skips slots with no (truthy)
item id, defaults a missing count to 1, and sums the counts of slots sharing
a display name: the per-name value of the produced snapshot is exactly the
declarative per-name sum, and two slots named "Flor" with counts 3 and 5
yield 8. -/
theorem processContainer_sums :
    (∀ (container : List (Option Slot)) (k : String),
        jsOr0 (jsGet (processContainer container) k) = containerSum container k) ∧
      jsOr0 (jsGet (processContainer
          [some ⟨some "minecraft:red_flower", some "Flor", some 3⟩,
           some ⟨some "minecraft:red_flower", some "Flor", some 5⟩]) "Flor") = 8 := by
  constructor
  · intro container k
    have h := foldl_processSlot_jsOr0 container [] k
    rw [show jsOr0 (jsGet [] k) = 0 from rfl, zero_add] at h
    exact h
  · decide

/-- C3 (counterexample): a run whose profile fetch exhausts its retries, and a
run whose response has no `profiles` object, both exit with status 0 - the
error is caught inside getPlayerInventory, which returns null, and
checkInventoryChanges returns early and cleanly; the claim that such runs
exit non-zero is false. -/
theorem mainExitCode_swallowed_cex :
    mainExitCode ⟨FetchOutcome.failure, some [], some [], true⟩ = 0 ∧
      mainExitCode ⟨FetchOutcome.success ⟨none⟩, some [], some [], true⟩ = 0 :=
  ⟨rfl, rfl⟩

/-- C3 (amended): the process exits 0 on a clean run AND on profile-level
failures (fetch retries exhausted, malformed profile), which are swallowed;
it exits non-zero exactly when an error propagates out of
checkInventoryChanges, i.e. when the profile was obtained but a
document-store read or write fails. -/
theorem mainExitCode_zero_iff (env : RunEnv) :
    mainExitCode env = 0 ↔
      (getPlayerInventory env.fetch = none ∨
        (env.prevInventoryDoc ≠ none ∧ env.investmentRecordDoc ≠ none
          ∧ env.writesOk = true)) := by
  unfold mainExitCode checkInventoryChanges
  cases hf : getPlayerInventory env.fetch with
  | none => simp
  | some d =>
    cases hp : env.prevInventoryDoc with
    | none => simp
    | some pv =>
      cases hq : env.investmentRecordDoc with
      | none => simp
      | some qv =>
        cases hw : env.writesOk with
        | false => simp
        | true => simp

/-- C3 (witness): the fetch-failure run exits 0 via the amended
characterisation. -/
theorem mainExitCode_zero_iff_witness :
    mainExitCode ⟨FetchOutcome.failure, some [], some [], true⟩ = 0 :=
  (mainExitCode_zero_iff ⟨FetchOutcome.failure, some [], some [], true⟩).mpr
    (Or.inl rfl)


end SBE1
